import Mathlib

/-!
Verification of the zip-fill lookup/metrics service.

The development shallowly embeds the JavaScript sources:
* the embeddable client (`class ZipFill`: `load`, `lookup` and the inline
  normalization `String(zip).trim().padStart(5,'0').slice(0,5)` + `/^\d{5}$/`),
* the API server helpers (`normalizeZip`, `lookupZip`, the
  `POST /api/batch` handler),
* the metrics aggregator (`Metrics.recordLookup`, the hourly-bucket part of
  `Metrics.recordRequest`, `Metrics._cleanOldHours`, `Metrics._pruneTopZips`,
  `Metrics._percentile`).

JavaScript numbers appearing as exact quantities (counters, indices) are
modelled as `Nat`/`Int`; response-time samples and percentile arguments are
modelled as exact rationals.  The special JavaScript value `NaN`, which the
hourly counters can reach via `undefined++`, is modelled explicitly by
`JNum.nan`.  JavaScript objects used as string-keyed dictionaries are modelled
as association lists in insertion order (all keys involved are not
integer-like, so JavaScript key enumeration order is insertion order).
Stable `Array.prototype.sort` with a comparator is modelled by
`List.insertionSort`, which computes the stable sort for the corresponding
boolean comparison.
-/

/-- The JavaScript whitespace set recognised by `String.prototype.trim`
(WhiteSpace ∪ LineTerminator: tab, LF, VT, FF, CR, space, NBSP, Ogham space,
the en-quad..hair-space range, LS, PS, NNBSP, MMSP, ideographic space, BOM). -/
def jsWhitespace (c : Char) : Bool :=
  let n := c.toNat
  n == 9 || n == 10 || n == 11 || n == 12 || n == 13 || n == 32 || n == 160 ||
  n == 0x1680 || (0x2000 ≤ n && n ≤ 0x200A) || n == 0x2028 || n == 0x2029 ||
  n == 0x202F || n == 0x205F || n == 0x3000 || n == 0xFEFF

/-- The character class `\d` of the validation regexes: exactly `0`-`9`. -/
def jsIsDigit (c : Char) : Bool :=
  48 ≤ c.toNat && c.toNat ≤ 57

/-- `String.prototype.trim`: strip leading and trailing whitespace. -/
def jsTrim (s : String) : String :=
  ⟨((s.data.dropWhile jsWhitespace).reverse.dropWhile jsWhitespace).reverse⟩

/-- `s.padStart(n, c)` for a one-character pad string: prepend copies of `c`
until the length reaches `n` (no-op when the string is already long enough). -/
def jsPadStart (s : String) (n : Nat) (c : Char) : String :=
  if n ≤ s.length then s else ⟨List.replicate (n - s.length) c ++ s.data⟩

/-- `s.slice(0, n)`: the first `n` characters. -/
def jsSliceTo (s : String) (n : Nat) : String :=
  ⟨s.data.take n⟩

/-- The test `/^\d{5}$/.test s`: exactly five decimal digits. -/
def regexFiveDigits (s : String) : Bool :=
  s.length == 5 && s.data.all jsIsDigit

/-- JavaScript string comparison `a < b` (lexicographic on code units; all
strings occurring as keys here are ASCII, where code units and code points
agree).  Used by the default comparator of `Object.keys(...).sort()`. -/
def jsStrLt : List Char → List Char → Bool
  | [], [] => false
  | [], _ :: _ => true
  | _ :: _, [] => false
  | a :: as, b :: bs =>
    if a.toNat < b.toNat then true
    else if b.toNat < a.toNat then false
    else jsStrLt as bs

/-- JavaScript string comparison lifted to `String`. -/
def jsStrLtB (a b : String) : Bool :=
  jsStrLt a.data b.data

/-- The JavaScript values that can reach the lookup/normalization entry
points: strings, integral numbers, `null` and `undefined`. -/
inductive JSValue where
  | str (s : String)
  | num (n : Int)
  | null
  | undef
deriving DecidableEq

/-- `String(v)`: JavaScript string coercion. -/
def jsToString : JSValue → String
  | .str s => s
  | .num n => toString n
  | .null => "null"
  | .undef => "undefined"

/-- JavaScript truthiness of a value (`""`, `0`, `null`, `undefined` are
falsy). -/
def jsTruthy : JSValue → Bool
  | .str s => !(s == "")
  | .num n => !(n == 0)
  | .null => false
  | .undef => false

/-- The shared normalization pipeline
`String(zip).trim().padStart(5, '0').slice(0, 5)`. -/
def normPipe (s : String) : String :=
  jsSliceTo (jsPadStart (jsTrim s) 5 '0') 5

/-- A location record of the lookup artifact. -/
structure Location where
  city : String
  state : String
  county : String
deriving DecidableEq

/-- A value of the lookup artifact: either a single `Location` object or an
array of `Location` objects (`Array.isArray` distinguishes the two). -/
inductive ZipVal where
  | one (l : Location)
  | many (ls : List Location)
deriving DecidableEq

/-- The loaded lookup artifact: a string-keyed JSON object in key insertion
order. -/
def ZipTable := List (String × ZipVal)

/-- Property access `table[key]` (`undefined`, i.e. `none`, when absent). -/
def tableGet (t : ZipTable) (k : String) : Option ZipVal :=
  (t.find? (fun e => e.1 == k)).map (fun e => e.2)

/-- Well-formedness of an artifact value: an array value is non-empty (the
build step only ever appends to a freshly created array, so empty arrays never
occur in the artifact). -/
def wfZipVal : ZipVal → Bool
  | .one _ => true
  | .many ls => !ls.isEmpty

/-- `Array.isArray(locations) ? locations : [locations]`. -/
def toLocations : ZipVal → List Location
  | .one l => [l]
  | .many ls => ls

/-- `Array.isArray(locations) && locations.length > 1`. -/
def hasMultipleOf : ZipVal → Bool
  | .one _ => false
  | .many ls => decide (1 < ls.length)

/-- The result object `{ zip, locations, hasMultiple }`. -/
structure LookupResult where
  zip : String
  locations : List Location
  hasMultiple : Bool
deriving DecidableEq

namespace ZipFill

/-- The client-side normalization inline in `ZipFill.lookup`:
`String(zip).trim().padStart(5,'0').slice(0,5)` followed by the
`/^\d{5}$/` test; `none` models the `return null` taken when the test
fails. -/
def normalize (zip : JSValue) : Option String :=
  let normalizedZip := normPipe (jsToString zip)
  if regexFiveDigits normalizedZip then some normalizedZip else none

/-- The observable state of a `ZipFill` instance. -/
structure State where
  loaded : Bool
  data : Option ZipTable

/-- `ZipFill.lookup`: `null` before the data is loaded, `null` on failed
normalization or on an absent key, otherwise the result object. -/
def lookup (st : State) (zip : JSValue) : Option LookupResult :=
  if st.loaded = false then none
  else
    match st.data with
    | none => none
    | some table =>
      match normalize zip with
      | none => none
      | some normalizedZip =>
        match tableGet table normalizedZip with
        | none => none
        | some v => some ⟨normalizedZip, toLocations v, hasMultipleOf v⟩

/-- Outcome of a settled load promise (resolved with the instance, or
rejected with the fetch/parse error). -/
inductive LoadOutcome where
  | ok
  | failed
deriving DecidableEq

/-- The load-relevant state of a `ZipFill` instance: whether `this.data` is
set, the `this.loaded` flag, and the settled value of the cached
`this.loadPromise` (`none` when no load has been started). -/
structure LoadState where
  hasData : Bool
  loaded : Bool
  loadPromise : Option LoadOutcome
deriving DecidableEq

/-- What one completed `load()` call did: the state it leaves behind, the
outcome its returned promise settles to, and whether it issued an underlying
`fetch`. -/
structure LoadCall where
  next : LoadState
  outcome : LoadOutcome
  fetched : Bool
deriving DecidableEq

/-- `ZipFill.load`, as a state transition observed after the returned promise
settles.  `fetchResult` is the outcome the network/parse step would produce
if a fetch were actually issued.  Mirrors the source: an already-loaded
instance returns immediately; a cached `loadPromise` is returned without any
new work; otherwise the body runs, and on fetch failure it rethrows after
leaving `this.loaded` false and `this.loadPromise` set to the (rejected)
promise. -/
def load (st : LoadState) (fetchResult : LoadOutcome) : LoadCall :=
  if st.loaded then ⟨st, .ok, false⟩
  else
    match st.loadPromise with
    | some o => ⟨st, o, false⟩
    | none =>
      if st.hasData then ⟨{ st with loaded := true, loadPromise := some .ok }, .ok, false⟩
      else
        match fetchResult with
        | .ok => ⟨⟨true, true, some .ok⟩, .ok, true⟩
        | .failed => ⟨{ st with loadPromise := some .failed }, .failed, true⟩

/-- A freshly constructed `new ZipFill()` (no data argument). -/
def freshLoadState : LoadState := ⟨false, false, none⟩

end ZipFill

/-- `normalizeZip` of the API server: rejects falsy input outright, then runs
the shared pipeline and the `/^\d{5}$/` test. -/
def normalizeZip (zip : JSValue) : Option String :=
  if jsTruthy zip = false then none
  else
    let normalized := normPipe (jsToString zip)
    if regexFiveDigits normalized then some normalized else none

/-- A response of the server-side `lookupZip`: either the result payload or
an error descriptor `{ error, zip }` (whose `zip` field echoes the raw input
for format errors and the normalized string for not-found). -/
inductive ServerReply where
  | payload (r : LookupResult)
  | failure (error : String) (zip : JSValue)
deriving DecidableEq

/-- `lookupZip` of the API server. -/
def lookupZip (table : ZipTable) (zip : JSValue) : ServerReply :=
  match normalizeZip zip with
  | none => .failure "Invalid zip code format" zip
  | some normalized =>
    match tableGet table normalized with
    | none => .failure "Zip code not found" (.str normalized)
    | some locations =>
      .payload ⟨normalized, toLocations locations, hasMultipleOf locations⟩

/-- The `zips` field of a `POST /api/batch` request body: absent (or some
other falsy value), present but not an array, or an array of raw values. -/
inductive BatchZips where
  | absent
  | nonArray (v : JSValue)
  | array (zips : List JSValue)

/-- A response of the batch endpoint: a 400 validation error or a 200
`{ results }` payload. -/
inductive BatchResponse where
  | badRequest (error : String)
  | okResults (results : List ServerReply)
deriving DecidableEq

/-- The `POST /api/batch` handler: 400 when `zips` is missing/not an array or
longer than 100, otherwise `zips.map(zip => lookupZip(zip))` in order. -/
def apiBatch (table : ZipTable) (zips : BatchZips) : BatchResponse :=
  match zips with
  | .absent => .badRequest "Missing or invalid zips array"
  | .nonArray _ => .badRequest "Missing or invalid zips array"
  | .array zs =>
    if 100 < zs.length then .badRequest "Maximum 100 zips per request"
    else .okResults (zs.map (lookupZip table))

namespace Metrics

/-- A JavaScript number used as a bucket counter.  `nan` is the value
`undefined++` produces when a key is incremented right after being deleted. -/
inductive JNum where
  | nan
  | val (n : Nat)
deriving DecidableEq

/-- Truthiness of `obj[key]` for a bucket read: `undefined`, `NaN` and `0`
are falsy. -/
def truthyNum : Option JNum → Bool
  | none => false
  | some .nan => false
  | some (.val n) => !(n == 0)

/-- The `hourlyRequests` object: hour-key/count pairs in insertion order. -/
def Buckets := List (String × JNum)

/-- Read `obj[k]`. -/
def bget (m : List (String × JNum)) (k : String) : Option JNum :=
  (m.find? (fun e => e.1 == k)).map (fun e => e.2)

/-- Assignment `obj[k] = v`: overwrite in place, or append a new key. -/
def bset : List (String × JNum) → String → JNum → List (String × JNum)
  | [], k, v => [(k, v)]
  | e :: t, k, v => if e.1 == k then (k, v) :: t else e :: bset t k v

/-- `obj[k]++`: bump a number, keep `NaN`, and turn an absent key into `NaN`
(reading `undefined` and adding one). -/
def bincr (m : List (String × JNum)) (k : String) : List (String × JNum) :=
  match bget m k with
  | none => bset m k .nan
  | some .nan => bset m k .nan
  | some (.val n) => bset m k (.val (n + 1))

/-- The smallest key of the object, i.e. the first element of
`Object.keys(obj).sort()`. -/
def minKeyB : List (String × JNum) → Option String
  | [] => none
  | e :: t =>
    match minKeyB t with
    | none => some e.1
    | some k => if jsStrLtB k e.1 then some k else some e.1

/-- One iteration of the cleanup loop: `delete obj[keys.shift()]` for the
sorted key list, i.e. removal of the entry with the smallest key. -/
def removeMinB (m : List (String × JNum)) : List (String × JNum) :=
  match minKeyB m with
  | none => m
  | some k => m.eraseP (fun e => e.1 == k)

/-- The cleanup loop of `Metrics._cleanOldHours`, with explicit fuel (the
loop removes one key per iteration, so `m.length` iterations always
suffice). -/
def cleanAux : Nat → List (String × JNum) → List (String × JNum)
  | 0, m => m
  | fuel + 1, m => if m.length ≤ 168 then m else cleanAux fuel (removeMinB m)

/-- `Metrics._cleanOldHours`: sort the keys and delete the smallest ones
until at most 168 remain. -/
def cleanOldHours (m : List (String × JNum)) : List (String × JNum) :=
  cleanAux m.length m

/-- The `hourlyRequests` slice of `Metrics.recordRequest` (the endpoint,
status, method and response-time counters do not interact with the hourly
buckets): on a falsy read the bucket is created as `0` and the cleanup runs,
then the bucket is incremented.  `hour` is the key `_getCurrentHour()`
computed from the system clock. -/
def recordRequestHourly (m : List (String × JNum)) (hour : String) :
    List (String × JNum) :=
  let m1 := if truthyNum (bget m hour) then m else cleanOldHours (bset m hour (.val 0))
  bincr m1 hour

/-- A string-keyed counter object (`topZips`, `topStates`). -/
def cget (m : List (String × Nat)) (k : String) : Option Nat :=
  (m.find? (fun e => e.1 == k)).map (fun e => e.2)

/-- Assignment into a counter object. -/
def cset : List (String × Nat) → String → Nat → List (String × Nat)
  | [], k, v => [(k, v)]
  | e :: t, k, v => if e.1 == k then (k, v) :: t else e :: cset t k v

/-- `obj[k] = (obj[k] || 0) + 1`. -/
def cincr (m : List (String × Nat)) (k : String) : List (String × Nat) :=
  cset m k ((cget m k).getD 0 + 1)

/-- The stable sort `entries.sort((a, b) => b[1] - a[1])`: by count
descending, ties kept in original order. -/
def sortByCountDesc (m : List (String × Nat)) : List (String × Nat) :=
  List.insertionSort (fun a b => b.2 ≤ a.2) m

/-- `Metrics._pruneTopZips`: keep the top 500 entries by count descending. -/
def pruneTopZips (m : List (String × Nat)) : List (String × Nat) :=
  (sortByCountDesc m).take 500

/-- The lookup-statistics slice of the metrics state (`this.lookups`). -/
structure LookupStats where
  total : Nat
  found : Nat
  notFound : Nat
  topZips : List (String × Nat)
  topStates : List (String × Nat)
deriving DecidableEq

/-- The `result` argument of `Metrics.recordLookup`: `null`/`undefined`, an
object with a truthy `error` property, or a result object without an error
marker carrying its `locations` array. -/
inductive LookupArg where
  | absent
  | errored
  | ok (locations : List Location)
deriving DecidableEq

/-- The branch condition `result && !result.error`. -/
def isSuccessArg : LookupArg → Bool
  | .ok _ => true
  | _ => false

/-- `Metrics.recordLookup`: bump `total`; on success bump `found`, the
per-zip counter and (for a non-empty `locations`) the first location's state
counter, then prune `topZips` when it exceeds 1000 distinct keys; otherwise
bump `notFound`. -/
def recordLookup (st : LookupStats) (zip : String) (result : LookupArg) :
    LookupStats :=
  let st := { st with total := st.total + 1 }
  match result with
  | .ok locs =>
    let st := { st with found := st.found + 1, topZips := cincr st.topZips zip }
    let st :=
      match locs with
      | [] => st
      | l0 :: _ => { st with topStates := cincr st.topStates l0.state }
    if 1000 < st.topZips.length then { st with topZips := pruneTopZips st.topZips }
    else st
  | _ => { st with notFound := st.notFound + 1 }

/-- The lookup statistics of a freshly constructed `Metrics` instance. -/
def lookupStatsInit : LookupStats := ⟨0, 0, 0, [], []⟩

/-- Fold a sequence of `recordLookup` calls over a state. -/
def applyLookups (st : LookupStats) (evs : List (String × LookupArg)) :
    LookupStats :=
  evs.foldl (fun s e => recordLookup s e.1 e.2) st

/-- The sort `[...arr].sort((a, b) => a - b)`: ascending numeric order. -/
def jsSortNums (arr : List ℚ) : List ℚ :=
  List.insertionSort (fun a b => a ≤ b) arr

/-- `Metrics._percentile`: `0` on an empty sample list, otherwise the sorted
sample at index `Math.max(0, Math.ceil((p / 100) * length) - 1)`; `none`
models the `undefined` an out-of-range index would read. -/
def percentile (arr : List ℚ) (p : ℚ) : Option ℚ :=
  if arr.length = 0 then some 0
  else
    let sorted := jsSortNums arr
    let idx : ℤ := ⌈p / 100 * (sorted.length : ℚ)⌉ - 1
    sorted.get? (max 0 idx).toNat

/-- Fold a sequence of requests (identified by their hour keys) through the
hourly-bucket part of `recordRequest`. -/
def applyHours (m : List (String × JNum)) (hours : List String) :
    List (String × JNum) :=
  hours.foldl recordRequestHourly m

end Metrics

/-- A reachable bucket state: 168 distinct hour keys `"h100"`..`"h267"`, one
request recorded in each. -/
def hourKeys168 : List (String × Metrics.JNum) :=
  (List.range 168).map (fun i => ("h" ++ toString (100 + i), Metrics.JNum.val 1))

/-! ## Helper lemmas -/

/-- A string passing `/^\d{5}$/` has five characters, all decimal digits. -/
theorem regexFiveDigits_length_digits {s : String} (h : regexFiveDigits s = true) :
    s.length = 5 ∧ s.data.all jsIsDigit = true := by
  simpa [regexFiveDigits] using h

/-! ## Claims -/

/-- C1: for every input value, normalization (both the inline client pipeline
of `ZipFill.lookup` and the server's `normalizeZip`) coerces to a string,
trims, left-pads with `'0'` to length 5, truncates to the first 5 characters
and validates `/^\d{5}$/`; it either returns a 5-character all-digit string
or signals invalid, with `normalize("123") = "00123"`,
`normalize("1234567") = "12345"` and `normalize("abc12")` invalid. -/
theorem c1_normalization_contract :
    (∀ v : JSValue,
        (∃ r, ZipFill.normalize v = some r ∧ r.length = 5 ∧ r.data.all jsIsDigit = true) ∨
          ZipFill.normalize v = none) ∧
    (∀ v : JSValue,
        (∃ r, normalizeZip v = some r ∧ r.length = 5 ∧ r.data.all jsIsDigit = true) ∨
          normalizeZip v = none) ∧
    (∀ v : JSValue, ZipFill.normalize v =
        (if regexFiveDigits (normPipe (jsToString v)) then some (normPipe (jsToString v))
         else none)) ∧
    ZipFill.normalize (.str "123") = some "00123" ∧
    normalizeZip (.str "123") = some "00123" ∧
    ZipFill.normalize (.str "1234567") = some "12345" ∧
    normalizeZip (.str "1234567") = some "12345" ∧
    ZipFill.normalize (.str "abc12") = none ∧
    normalizeZip (.str "abc12") = none := by
  refine ⟨?_, ?_, ?_, by decide, by decide, by decide, by decide, by decide, by decide⟩
  · intro v
    by_cases h : regexFiveDigits (normPipe (jsToString v)) = true
    · exact Or.inl ⟨_, by simp [ZipFill.normalize, h],
        (regexFiveDigits_length_digits h).1, (regexFiveDigits_length_digits h).2⟩
    · exact Or.inr (by simp [ZipFill.normalize, h])
  · intro v
    by_cases ht : jsTruthy v = true
    · by_cases h : regexFiveDigits (normPipe (jsToString v)) = true
      · exact Or.inl ⟨_, by simp [normalizeZip, ht, h],
          (regexFiveDigits_length_digits h).1, (regexFiveDigits_length_digits h).2⟩
      · exact Or.inr (by simp [normalizeZip, ht, h])
    · exact Or.inr (by simp [normalizeZip, Bool.eq_false_iff.mpr ht])
  · intro v
    rfl

/-- C2 counterexample: after a failed `load()` the instance is not loaded,
yet a second `load()` call issues no new fetch and settles to the cached
failure even though a retry would have succeeded — the claim's retry is
impossible. -/
theorem c2_no_new_fetch_after_failure :
    (ZipFill.load ZipFill.freshLoadState .failed).outcome = .failed ∧
    (ZipFill.load ZipFill.freshLoadState .failed).next.loaded = false ∧
    (ZipFill.load (ZipFill.load ZipFill.freshLoadState .failed).next .ok).fetched = false ∧
    (ZipFill.load (ZipFill.load ZipFill.freshLoadState .failed).next .ok).outcome =
      .failed := by
  decide

/-- C2 (amended): a failed `load()` leaves the table not loaded but caches
the rejected promise, so every subsequent `load()` call performs no new
fetch and returns the same cached failure; retry is not possible. -/
theorem c2_failure_caches_rejection (st : ZipFill.LoadState) (f : ZipFill.LoadOutcome)
    (hl : st.loaded = false) (hp : st.loadPromise = some .failed) :
    ZipFill.load st f = ⟨st, .failed, false⟩ ∧
    ZipFill.load ZipFill.freshLoadState .failed =
      ⟨⟨false, false, some .failed⟩, .failed, true⟩ := by
  refine ⟨?_, by decide⟩
  simp [ZipFill.load, hl, hp]

/-- C2 witness: the amended theorem applied to the state a failed first load
leaves behind, with a fetch that would succeed. -/
theorem c2_failure_caches_rejection_witness :
    (⟨false, false, some .failed⟩ : ZipFill.LoadState).loaded = false ∧
    ZipFill.load ⟨false, false, some .failed⟩ .ok =
      ⟨⟨false, false, some .failed⟩, .failed, false⟩ :=
  ⟨rfl, (c2_failure_caches_rejection ⟨false, false, some .failed⟩ .ok rfl rfl).1⟩

/-- C3 counterexample: on the empty string (a falsy value) the client
normalization succeeds with `"00000"` while the server's `normalizeZip`
signals invalid, so the two algorithms are not the same. -/
theorem c3_client_server_normalize_differ :
    ZipFill.normalize (.str "") = some "00000" ∧
    normalizeZip (.str "") = none ∧
    ZipFill.normalize (.str "") ≠ normalizeZip (.str "") := by
  decide

/-- C3 (amended): on every truthy input the client normalization inside
`ZipFill.lookup` and the server's `normalizeZip` agree exactly; they diverge
only on falsy inputs (such as `""` or `0`), which the server rejects outright
while the client may still normalize (both coerce and pad to `"00000"`). -/
theorem c3_normalize_agree_on_truthy (v : JSValue) (h : jsTruthy v = true) :
    ZipFill.normalize v = normalizeZip v := by
  simp [ZipFill.normalize, normalizeZip, h]

/-- C3 witness: agreement at the truthy input `"90210"`. -/
theorem c3_normalize_agree_on_truthy_witness :
    jsTruthy (.str "90210") = true ∧
    ZipFill.normalize (.str "90210") = normalizeZip (.str "90210") :=
  ⟨by decide, c3_normalize_agree_on_truthy (.str "90210") (by decide)⟩

/-- C5: `POST /api/batch` rejects with a 400 validation error when `zips` is
missing, not an array, or longer than 100 (no partial processing), and
otherwise returns `zips.map(lookupZip)`: a result sequence of the same length
and order, each entry a found payload or an `{error, zip}` descriptor. -/
theorem c5_batch_endpoint (table : ZipTable) (zips : List JSValue)
    (h : zips.length ≤ 100) :
    apiBatch table (.array zips) = .okResults (zips.map (lookupZip table)) ∧
    (zips.map (lookupZip table)).length = zips.length ∧
    (∀ i : Nat, (zips.map (lookupZip table)).get? i = (zips.get? i).map (lookupZip table)) ∧
    apiBatch table .absent = .badRequest "Missing or invalid zips array" ∧
    (∀ v, apiBatch table (.nonArray v) = .badRequest "Missing or invalid zips array") ∧
    (∀ zs : List JSValue, 100 < zs.length →
        apiBatch table (.array zs) = .badRequest "Maximum 100 zips per request") ∧
    (∀ r ∈ zips.map (lookupZip table),
        (∃ res, r = .payload res) ∨ ∃ e z, r = .failure e z) := by
  refine ⟨by simp [apiBatch, Nat.not_lt.mpr h], List.length_map _ _, ?_, rfl, fun v => rfl,
    ?_, ?_⟩
  · intro i
    exact List.get?_map _ _ _
  · intro zs hzs
    simp [apiBatch, hzs]
  · intro r _
    cases r with
    | payload res => exact Or.inl ⟨res, rfl⟩
    | failure e z => exact Or.inr ⟨e, z, rfl⟩

/-- C5 witness: a two-element batch within the size limit. -/
theorem c5_batch_endpoint_witness :
    ([JSValue.str "90210", JSValue.str "00000"].length ≤ 100) ∧
    apiBatch [] (.array [JSValue.str "90210", JSValue.str "00000"]) =
      .okResults ([JSValue.str "90210", JSValue.str "00000"].map (lookupZip [])) :=
  ⟨by decide, (c5_batch_endpoint [] [JSValue.str "90210", JSValue.str "00000"] (by decide)).1⟩

/-- C6: `Metrics._percentile` sorts the samples ascending (a sorted
permutation of the input) and returns the element at index
`max 0 (⌈(p/100)·count⌉ - 1)`; the empty sample list yields 0, and on
`[10,20,30,40,50]` the 50th percentile is 30 and the 95th is 50. -/
theorem c6_percentile_algorithm (arr : List ℚ) (p : ℚ) (h : arr ≠ []) :
    Metrics.percentile arr p =
      (Metrics.jsSortNums arr).get? (max 0 (⌈p / 100 * (arr.length : ℚ)⌉ - 1)).toNat ∧
    (Metrics.jsSortNums arr).Perm arr ∧
    (Metrics.jsSortNums arr).Sorted (· ≤ ·) ∧
    (∀ q : ℚ, Metrics.percentile [] q = some 0) ∧
    Metrics.percentile [10, 20, 30, 40, 50] 50 = some 30 ∧
    Metrics.percentile [10, 20, 30, 40, 50] 95 = some 50 := by
  refine ⟨?_, List.perm_insertionSort _ arr, List.sorted_insertionSort _ arr,
    fun q => rfl, ?_, ?_⟩
  · have hlen : arr.length ≠ 0 := by simpa using h
    have hslen : (Metrics.jsSortNums arr).length = arr.length :=
      (List.perm_insertionSort _ arr).length_eq
    simp [Metrics.percentile, hlen, hslen]
  · have hs : Metrics.jsSortNums [10, 20, 30, 40, 50] = [10, 20, 30, 40, 50] := by decide
    simp [Metrics.percentile, hs]
    norm_num [show ⌈(5 : ℚ) / 2⌉ = 3 from by norm_num [Int.ceil_eq_iff]]
    decide
  · have hs : Metrics.jsSortNums [10, 20, 30, 40, 50] = [10, 20, 30, 40, 50] := by decide
    simp [Metrics.percentile, hs]
    norm_num [show ⌈(19 : ℚ) / 4⌉ = 5 from by norm_num [Int.ceil_eq_iff]]
    decide

/-- C6 witness: the percentile theorem applied to the non-empty sample list
`[10,20,30,40,50]` at p = 50. -/
theorem c6_percentile_algorithm_witness :
    ([10, 20, 30, 40, 50] : List ℚ) ≠ [] ∧
    Metrics.percentile [10, 20, 30, 40, 50] 50 = some 30 :=
  ⟨by decide, (c6_percentile_algorithm [10, 20, 30, 40, 50] 50 (by decide)).2.2.2.2.1⟩

/-- C9: calling `ZipFill.lookup` before the data is loaded returns `null`
(the not-ready signal) for every input, without throwing. -/
theorem c9_lookup_before_load (st : ZipFill.State) (zip : JSValue)
    (h : st.loaded = false) :
    ZipFill.lookup st zip = none := by
  simp [ZipFill.lookup, h]

/-- C9 witness: the fresh, never-loaded state. -/
theorem c9_lookup_before_load_witness :
    (⟨false, none⟩ : ZipFill.State).loaded = false ∧
    ZipFill.lookup ⟨false, none⟩ (.str "90210") = none :=
  ⟨rfl, c9_lookup_before_load ⟨false, none⟩ (.str "90210") rfl⟩

/-- A decimal digit is not JavaScript whitespace. -/
theorem jsIsDigit_not_whitespace {c : Char} (h : jsIsDigit c = true) :
    jsWhitespace c = false := by
  simp [jsIsDigit] at h
  simp [jsWhitespace]
  omega

/-- `dropWhile jsWhitespace` is the identity on all-digit character lists. -/
theorem dropWhile_whitespace_of_digits {l : List Char}
    (h : ∀ c ∈ l, jsIsDigit c = true) :
    l.dropWhile jsWhitespace = l := by
  cases l with
  | nil => rfl
  | cons c t =>
    simp [List.dropWhile_cons, jsIsDigit_not_whitespace (h c (by simp))]

/-- `trim` is the identity on all-digit strings. -/
theorem jsTrim_of_digits {s : String} (h : ∀ c ∈ s.data, jsIsDigit c = true) :
    jsTrim s = s := by
  have h1 : s.data.dropWhile jsWhitespace = s.data := dropWhile_whitespace_of_digits h
  have h2 : s.data.reverse.dropWhile jsWhitespace = s.data.reverse :=
    dropWhile_whitespace_of_digits (fun c hc => h c (List.mem_reverse.mp hc))
  simp [jsTrim, h1, h2]

/-- The normalization pipeline is the identity on strings already passing
`/^\d{5}$/`. -/
theorem normPipe_of_valid {s : String} (h : regexFiveDigits s = true) :
    normPipe s = s := by
  obtain ⟨h5, hd⟩ := regexFiveDigits_length_digits h
  have hd' : ∀ c ∈ s.data, jsIsDigit c = true := by simpa using hd
  have ht : jsTrim s = s := jsTrim_of_digits hd'
  rw [normPipe, ht, jsPadStart, if_pos (le_of_eq h5.symm)]
  show (⟨s.data.take 5⟩ : String) = s
  have hdata : s.data.length = 5 := h5
  rw [← hdata, List.take_length]

/-- Both normalizations are the identity on a valid 5-digit key. -/
theorem normalize_of_valid {k : String} (hk : regexFiveDigits k = true) :
    ZipFill.normalize (.str k) = some k ∧ normalizeZip (.str k) = some k := by
  have hp : normPipe k = k := normPipe_of_valid hk
  have hne : (k == "") = false := by
    rcases hbe : (k == "") with _ | _
    · rfl
    · have hke : k = "" := eq_of_beq hbe
      have h5 := (regexFiveDigits_length_digits hk).1
      rw [hke] at h5
      simp at h5
  constructor
  · simp [ZipFill.normalize, jsToString, hp, hk]
  · simp [normalizeZip, jsTruthy, hne, jsToString, hp, hk]

/-- C4: for every 5-digit key present in a loaded table with a well-formed
artifact value, both `ZipFill.lookup` and the server's `lookupZip` return the
key's locations as a non-empty sequence — a single-record value is wrapped
into a one-element sequence, an array value is returned as-is — and
`hasMultiple` is true iff the location sequence has length greater than 1. -/
theorem c4_lookup_location_shapes (table : ZipTable) (k : String) (v : ZipVal)
    (hk : regexFiveDigits k = true)
    (hv : tableGet table k = some v)
    (hwf : wfZipVal v = true) :
    ZipFill.lookup ⟨true, some table⟩ (.str k) =
      some ⟨k, toLocations v, hasMultipleOf v⟩ ∧
    lookupZip table (.str k) = .payload ⟨k, toLocations v, hasMultipleOf v⟩ ∧
    toLocations v ≠ [] ∧
    (hasMultipleOf v = true ↔ 1 < (toLocations v).length) ∧
    (∀ l, v = .one l → toLocations v = [l]) ∧
    (∀ ls, v = .many ls → toLocations v = ls) := by
  obtain ⟨hcn, hsn⟩ := normalize_of_valid hk
  refine ⟨?_, ?_, ?_, ?_, ?_, ?_⟩
  · simp [ZipFill.lookup, hcn, hv]
  · simp [lookupZip, hsn, hv]
  · cases v with
    | one l => simp [toLocations]
    | many ls =>
      simp [wfZipVal] at hwf
      simpa [toLocations] using hwf
  · cases v with
    | one l => simp [hasMultipleOf, toLocations]
    | many ls => simp [hasMultipleOf, toLocations]
  · intro l hl
    rw [hl]
    simp [toLocations]
  · intro ls hls
    rw [hls]
    simp [toLocations]

/-- C4 witness: the multi-city table entry `"12345"` from the README. -/
theorem c4_lookup_location_shapes_witness :
    regexFiveDigits "12345" = true ∧
    tableGet [("12345", ZipVal.many [⟨"Schenectady", "NY", "Schenectady"⟩,
        ⟨"Rotterdam", "NY", "Schenectady"⟩])] "12345" =
      some (ZipVal.many [⟨"Schenectady", "NY", "Schenectady"⟩,
        ⟨"Rotterdam", "NY", "Schenectady"⟩]) ∧
    wfZipVal (ZipVal.many [⟨"Schenectady", "NY", "Schenectady"⟩,
        ⟨"Rotterdam", "NY", "Schenectady"⟩]) = true ∧
    ZipFill.lookup ⟨true, some [("12345", ZipVal.many [⟨"Schenectady", "NY", "Schenectady"⟩,
        ⟨"Rotterdam", "NY", "Schenectady"⟩])]⟩ (.str "12345") =
      some ⟨"12345", [⟨"Schenectady", "NY", "Schenectady"⟩,
        ⟨"Rotterdam", "NY", "Schenectady"⟩], true⟩ := by
  refine ⟨by decide, by decide, by decide, ?_⟩
  have h := (c4_lookup_location_shapes
    [("12345", ZipVal.many [⟨"Schenectady", "NY", "Schenectady"⟩,
      ⟨"Rotterdam", "NY", "Schenectady"⟩])] "12345"
    (ZipVal.many [⟨"Schenectady", "NY", "Schenectady"⟩,
      ⟨"Rotterdam", "NY", "Schenectady"⟩])
    (by decide) (by decide) (by decide)).1
  simpa [toLocations, hasMultipleOf] using h

/-- One `recordLookup` call bumps `total` by one and exactly one of
`found`/`notFound`, according to `result && !result.error`. -/
theorem recordLookup_counter_step (st : Metrics.LookupStats) (zip : String)
    (arg : Metrics.LookupArg) :
    (Metrics.recordLookup st zip arg).total = st.total + 1 ∧
    (Metrics.isSuccessArg arg = true →
        (Metrics.recordLookup st zip arg).found = st.found + 1 ∧
        (Metrics.recordLookup st zip arg).notFound = st.notFound) ∧
    (Metrics.isSuccessArg arg = false →
        (Metrics.recordLookup st zip arg).found = st.found ∧
        (Metrics.recordLookup st zip arg).notFound = st.notFound + 1) := by
  cases arg with
  | absent => simp [Metrics.recordLookup, Metrics.isSuccessArg]
  | errored => simp [Metrics.recordLookup, Metrics.isSuccessArg]
  | ok locs =>
    cases locs with
    | nil =>
      simp only [Metrics.recordLookup, Metrics.isSuccessArg]
      split <;> simp
    | cons l0 rest =>
      simp only [Metrics.recordLookup, Metrics.isSuccessArg]
      split <;> simp

/-- `total = found + notFound` is preserved by every `recordLookup` fold. -/
theorem applyLookups_total_split (evs : List (String × Metrics.LookupArg)) :
    ∀ st : Metrics.LookupStats, st.total = st.found + st.notFound →
      (Metrics.applyLookups st evs).total =
        (Metrics.applyLookups st evs).found + (Metrics.applyLookups st evs).notFound := by
  induction evs with
  | nil => exact fun st h => h
  | cons e t ih =>
    intro st h
    have hstep := recordLookup_counter_step st e.1 e.2
    have hnext : (Metrics.recordLookup st e.1 e.2).total =
        (Metrics.recordLookup st e.1 e.2).found +
          (Metrics.recordLookup st e.1 e.2).notFound := by
      have h1 := hstep.1
      by_cases hs : Metrics.isSuccessArg e.2 = true
      · obtain ⟨hf, hn⟩ := hstep.2.1 hs
        omega
      · obtain ⟨hf, hn⟩ := hstep.2.2 (by simpa using hs)
        omega
    simpa [Metrics.applyLookups] using ih (Metrics.recordLookup st e.1 e.2) hnext

/-- C10: starting from a fresh `Metrics` instance, after any sequence of
`recordLookup` calls `total = found + notFound`; each call bumps `total` by
exactly one and exactly one of `found` (when the result is present without an
error marker) or `notFound` (otherwise). -/
theorem c10_lookup_count_invariant (evs : List (String × Metrics.LookupArg))
    (st : Metrics.LookupStats) (zip : String) (arg : Metrics.LookupArg) :
    (Metrics.applyLookups Metrics.lookupStatsInit evs).total =
      (Metrics.applyLookups Metrics.lookupStatsInit evs).found +
        (Metrics.applyLookups Metrics.lookupStatsInit evs).notFound ∧
    (Metrics.recordLookup st zip arg).total = st.total + 1 ∧
    (Metrics.isSuccessArg arg = true →
        (Metrics.recordLookup st zip arg).found = st.found + 1 ∧
        (Metrics.recordLookup st zip arg).notFound = st.notFound) ∧
    (Metrics.isSuccessArg arg = false →
        (Metrics.recordLookup st zip arg).found = st.found ∧
        (Metrics.recordLookup st zip arg).notFound = st.notFound + 1) :=
  ⟨applyLookups_total_split evs Metrics.lookupStatsInit rfl,
    (recordLookup_counter_step st zip arg).1,
    (recordLookup_counter_step st zip arg).2.1,
    (recordLookup_counter_step st zip arg).2.2⟩

/-- Assignment into a counter object grows it by one key exactly when the key
was absent. -/
theorem length_cset (m : List (String × Nat)) (k : String) (v : Nat) :
    (Metrics.cset m k v).length =
      if Metrics.cget m k = none then m.length + 1 else m.length := by
  induction m with
  | nil => simp [Metrics.cset, Metrics.cget]
  | cons e t ih =>
    by_cases he : (e.1 == k) = true
    · have h1 : Metrics.cset (e :: t) k v = (k, v) :: t := by
        simp [Metrics.cset, he]
      have h2 : Metrics.cget (e :: t) k = some e.2 := by
        simp [Metrics.cget, List.find?_cons, he]
      simp [h1, h2]
    · have he' : (e.1 == k) = false := by simpa using he
      have h1 : Metrics.cset (e :: t) k v = e :: Metrics.cset t k v := by
        simp [Metrics.cset, he']
      have h2 : Metrics.cget (e :: t) k = Metrics.cget t k := by
        simp [Metrics.cget, List.find?_cons, he']
      rw [h1, h2, List.length_cons, ih]
      split <;> simp

/-- `cincr` grows a counter object by at most one key. -/
theorem length_cincr (m : List (String × Nat)) (k : String) :
    (Metrics.cincr m k).length =
      if Metrics.cget m k = none then m.length + 1 else m.length :=
  length_cset m k _

/-- `_pruneTopZips` keeps `min 500` of the entries. -/
theorem length_pruneTopZips (m : List (String × Nat)) :
    (Metrics.pruneTopZips m).length = min 500 m.length := by
  simp [Metrics.pruneTopZips, Metrics.sortByCountDesc, List.length_take,
    List.length_insertionSort]

/-- On a successful lookup, the new `topZips` is the incremented map, pruned
exactly when it exceeds 1000 distinct keys. -/
theorem recordLookup_topZips_ok (st : Metrics.LookupStats) (zip : String)
    (locs : List Location) :
    (Metrics.recordLookup st zip (.ok locs)).topZips =
      if 1000 < (Metrics.cincr st.topZips zip).length
      then Metrics.pruneTopZips (Metrics.cincr st.topZips zip)
      else Metrics.cincr st.topZips zip := by
  cases locs
  all_goals simp only [Metrics.recordLookup]
  all_goals split <;> rfl

/-- On an unsuccessful lookup `topZips` is untouched. -/
theorem recordLookup_topZips_other (st : Metrics.LookupStats) (zip : String)
    (arg : Metrics.LookupArg) (h : Metrics.isSuccessArg arg = false) :
    (Metrics.recordLookup st zip arg).topZips = st.topZips := by
  cases arg with
  | absent => rfl
  | errored => rfl
  | ok locs => simp [Metrics.isSuccessArg] at h

/-- A single `recordLookup` keeps `topZips` within 1000 keys. -/
theorem recordLookup_topZips_bound (st : Metrics.LookupStats) (zip : String)
    (arg : Metrics.LookupArg) (h : st.topZips.length ≤ 1000) :
    (Metrics.recordLookup st zip arg).topZips.length ≤ 1000 := by
  cases arg with
  | absent => simpa [Metrics.recordLookup] using h
  | errored => simpa [Metrics.recordLookup] using h
  | ok locs =>
    rw [recordLookup_topZips_ok]
    by_cases hgt : 1000 < (Metrics.cincr st.topZips zip).length
    · rw [if_pos hgt, length_pruneTopZips]
      omega
    · rw [if_neg hgt]
      omega

/-- The 1000-key bound on `topZips` holds after every fold of
`recordLookup` calls. -/
theorem applyLookups_topZips_bound (evs : List (String × Metrics.LookupArg)) :
    ∀ st : Metrics.LookupStats, st.topZips.length ≤ 1000 →
      (Metrics.applyLookups st evs).topZips.length ≤ 1000 := by
  induction evs with
  | nil => exact fun st h => h
  | cons e t ih =>
    intro st h
    simpa [Metrics.applyLookups] using
      ih (Metrics.recordLookup st e.1 e.2) (recordLookup_topZips_bound st e.1 e.2 h)

/-- C8: after every `recordLookup` call (from any state within the bound, and
along any call sequence from a fresh instance) the per-code popularity map
`topZips` holds at most 1000 distinct entries; whenever the increment pushes
it past 1000 distinct codes it is replaced by exactly the top 500 entries of
the count-descending stable sort, the rest being discarded. -/
theorem c8_topZips_retention (st : Metrics.LookupStats) (zip : String)
    (arg : Metrics.LookupArg) (h : st.topZips.length ≤ 1000) :
    (Metrics.recordLookup st zip arg).topZips.length ≤ 1000 ∧
    (∀ evs, (Metrics.applyLookups Metrics.lookupStatsInit evs).topZips.length ≤ 1000) ∧
    (∀ locs, (Metrics.recordLookup st zip (.ok locs)).topZips =
        if 1000 < (Metrics.cincr st.topZips zip).length
        then (Metrics.sortByCountDesc (Metrics.cincr st.topZips zip)).take 500
        else Metrics.cincr st.topZips zip) ∧
    (∀ locs, 1000 < (Metrics.cincr st.topZips zip).length →
        (Metrics.recordLookup st zip (.ok locs)).topZips.length = 500) := by
  refine ⟨recordLookup_topZips_bound st zip arg h,
    fun evs => applyLookups_topZips_bound evs _ (by simp [Metrics.lookupStatsInit]),
    fun locs => recordLookup_topZips_ok st zip locs, ?_⟩
  intro locs hgt
  rw [recordLookup_topZips_ok, if_pos hgt, length_pruneTopZips]
  omega

/-- C8 witness: a first lookup recorded on a fresh instance. -/
theorem c8_topZips_retention_witness :
    Metrics.lookupStatsInit.topZips.length ≤ 1000 ∧
    (Metrics.recordLookup Metrics.lookupStatsInit "90210" (.ok [])).topZips.length ≤ 1000 :=
  ⟨by decide, (c8_topZips_retention Metrics.lookupStatsInit "90210" (.ok []) (by decide)).1⟩

/-- JavaScript string comparison is irreflexive. -/
theorem jsStrLt_irrefl (l : List Char) : jsStrLt l l = false := by
  induction l with
  | nil => rfl
  | cons c t ih => simp [jsStrLt, ih]

/-- JavaScript string comparison is asymmetric. -/
theorem jsStrLt_asymm {a b : List Char} (h : jsStrLt a b = true) :
    jsStrLt b a = false := by
  induction a generalizing b with
  | nil =>
    cases b with
    | nil => simpa [jsStrLt] using h
    | cons d s => rfl
  | cons c t ih =>
    cases b with
    | nil => simp [jsStrLt] at h
    | cons d s =>
      by_cases h1 : c.toNat < d.toNat
      · simp [jsStrLt, Nat.lt_asymm h1, h1]
      · by_cases h2 : d.toNat < c.toNat
        · simp [jsStrLt, h1, h2] at h
        · simp only [jsStrLt, h1, h2, if_false] at h ⊢
          exact ih h

/-- Asymmetry, on `String`. -/
theorem jsStrLtB_asymm {a b : String} (h : jsStrLtB a b = true) :
    jsStrLtB b a = false :=
  jsStrLt_asymm h

/-- Strictly smaller keys are distinct. -/
theorem jsStrLtB_ne {a b : String} (h : jsStrLtB a b = true) : a ≠ b := by
  intro he
  subst he
  rw [jsStrLtB, jsStrLt_irrefl] at h
  exact Bool.false_ne_true h

/-- Reading a bucket object behind a cons. -/
theorem bget_cons (e : String × Metrics.JNum) (t : List (String × Metrics.JNum))
    (k : String) :
    Metrics.bget (e :: t) k =
      if (e.1 == k) = true then some e.2 else Metrics.bget t k := by
  by_cases he : (e.1 == k) = true
  · simp [Metrics.bget, List.find?_cons, he]
  · simp [Metrics.bget, List.find?_cons, he]

/-- A key matching no entry reads as `undefined`. -/
theorem bget_eq_none {m : List (String × Metrics.JNum)} {k : String}
    (h : ∀ e ∈ m, (e.1 == k) = false) :
    Metrics.bget m k = none := by
  induction m with
  | nil => rfl
  | cons e t ih =>
    rw [bget_cons, if_neg (by simp [h e (List.mem_cons_self e t)])]
    exact ih (fun x hx => h x (List.mem_cons_of_mem e hx))

/-- Conversely, an `undefined` read means no entry matches. -/
theorem bget_none_forall {m : List (String × Metrics.JNum)} {k : String}
    (h : Metrics.bget m k = none) :
    ∀ e ∈ m, (e.1 == k) = false := by
  induction m with
  | nil => simp
  | cons e t ih =>
    by_cases he : (e.1 == k) = true
    · rw [bget_cons, if_pos he] at h
      exact absurd h (by simp)
    · rw [bget_cons, if_neg he] at h
      intro x hx
      rcases List.mem_cons.mp hx with rfl | hx'
      · simpa using he
      · exact ih h x hx'

/-- Assigning a fresh key appends it (JavaScript insertion order). -/
theorem bset_append_of_none {m : List (String × Metrics.JNum)} {k : String}
    (h : Metrics.bget m k = none) (v : Metrics.JNum) :
    Metrics.bset m k v = m ++ [(k, v)] := by
  induction m with
  | nil => rfl
  | cons e t ih =>
    by_cases he : (e.1 == k) = true
    · rw [bget_cons, if_pos he] at h
      exact absurd h (by simp)
    · rw [bget_cons, if_neg he] at h
      show (if (e.1 == k) = true then _ else _) = _
      rw [if_neg he, ih h]
      rfl

/-- Assignment grows a bucket object by one key exactly when it was absent. -/
theorem length_bset (m : List (String × Metrics.JNum)) (k : String) (v : Metrics.JNum) :
    (Metrics.bset m k v).length =
      if Metrics.bget m k = none then m.length + 1 else m.length := by
  induction m with
  | nil => simp [Metrics.bset, Metrics.bget]
  | cons e t ih =>
    by_cases he : (e.1 == k) = true
    · have h1 : Metrics.bset (e :: t) k v = (k, v) :: t := by
        simp [Metrics.bset, he]
      rw [h1, bget_cons, if_pos he]
      simp
    · have h1 : Metrics.bset (e :: t) k v = e :: Metrics.bset t k v := by
        simp [Metrics.bset, he]
      rw [h1, bget_cons, if_neg he, List.length_cons, ih]
      split <;> simp

/-- Reading back a just-assigned key. -/
theorem bget_bset_self (m : List (String × Metrics.JNum)) (k : String)
    (v : Metrics.JNum) :
    Metrics.bget (Metrics.bset m k v) k = some v := by
  induction m with
  | nil => simp [Metrics.bset, bget_cons]
  | cons e t ih =>
    by_cases he : (e.1 == k) = true
    · have h1 : Metrics.bset (e :: t) k v = (k, v) :: t := by
        simp [Metrics.bset, he]
      rw [h1, bget_cons]
      simp
    · have h1 : Metrics.bset (e :: t) k v = e :: Metrics.bset t k v := by
        simp [Metrics.bset, he]
      rw [h1, bget_cons, if_neg he, ih]

/-- `obj[k]++` grows the object by one key exactly when it was absent. -/
theorem length_bincr (m : List (String × Metrics.JNum)) (k : String) :
    (Metrics.bincr m k).length =
      if Metrics.bget m k = none then m.length + 1 else m.length := by
  rcases h : Metrics.bget m k with _ | x
  · simp [Metrics.bincr, h, length_bset]
  · cases x <;> simp [Metrics.bincr, h, length_bset]

/-- The cleanup loop leaves a small-enough object untouched. -/
theorem cleanAux_of_le {m : List (String × Metrics.JNum)} (fuel : Nat)
    (h : m.length ≤ 168) :
    Metrics.cleanAux fuel m = m := by
  cases fuel with
  | zero => rfl
  | succ f => simp [Metrics.cleanAux, h]

/-- `_cleanOldHours` is the identity on objects within the retention cap. -/
theorem cleanOldHours_of_le {m : List (String × Metrics.JNum)}
    (h : m.length ≤ 168) :
    Metrics.cleanOldHours m = m :=
  cleanAux_of_le _ h

/-- Unfolding equation for `minKeyB` on a cons cell. -/
theorem minKeyB_cons (e : String × Metrics.JNum) (t : List (String × Metrics.JNum)) :
    Metrics.minKeyB (e :: t) =
      match Metrics.minKeyB t with
      | none => some e.1
      | some k => if jsStrLtB k e.1 = true then some k else some e.1 := by
  rfl

/-- A non-empty object has a smallest key. -/
theorem minKeyB_isSome (e : String × Metrics.JNum) (t : List (String × Metrics.JNum)) :
    ∃ k, Metrics.minKeyB (e :: t) = some k := by
  rcases h : Metrics.minKeyB t with _ | k
  · exact ⟨e.1, by rw [minKeyB_cons, h]⟩
  · by_cases hlt : jsStrLtB k e.1 = true
    · exact ⟨k, by rw [minKeyB_cons, h]; simp [hlt]⟩
    · exact ⟨e.1, by rw [minKeyB_cons, h]; simp [hlt]⟩

/-- The smallest key belongs to some entry of the object. -/
theorem minKeyB_mem {m : List (String × Metrics.JNum)} {k : String}
    (h : Metrics.minKeyB m = some k) :
    ∃ e ∈ m, e.1 = k := by
  induction m generalizing k with
  | nil => simp [Metrics.minKeyB] at h
  | cons e t ih =>
    rcases ht : Metrics.minKeyB t with _ | k'
    · rw [minKeyB_cons, ht] at h
      exact ⟨e, List.mem_cons_self e t, Option.some.inj h⟩
    · rw [minKeyB_cons, ht] at h
      by_cases hlt : jsStrLtB k' e.1 = true
      · simp only [hlt, if_true, ite_true] at h
        obtain ⟨e', he', hk'⟩ := ih ht
        exact ⟨e', List.mem_cons_of_mem e he', by rw [hk', Option.some.inj h]⟩
      · simp only [hlt, if_false, ite_false] at h
        exact ⟨e, List.mem_cons_self e t, Option.some.inj h⟩

/-- Appending an entry whose key is larger than every existing key does not
change the smallest key. -/
theorem minKeyB_append_last {m : List (String × Metrics.JNum)} {h : String}
    (v : Metrics.JNum) (hlt : ∀ e ∈ m, jsStrLtB e.1 h = true) (hne : m ≠ []) :
    Metrics.minKeyB (m ++ [(h, v)]) = Metrics.minKeyB m := by
  induction m with
  | nil => exact absurd rfl hne
  | cons e t ih =>
    cases t with
    | nil =>
      have h1 : jsStrLtB e.1 h = true := hlt e (by simp)
      have h2 : jsStrLtB h e.1 = false := jsStrLtB_asymm h1
      show Metrics.minKeyB (e :: [(h, v)]) = _
      rw [minKeyB_cons, minKeyB_cons]
      simp [Metrics.minKeyB, h2]
    | cons f s =>
      have ihe : Metrics.minKeyB ((f :: s) ++ [(h, v)]) = Metrics.minKeyB (f :: s) :=
        ih (fun x hx => hlt x (List.mem_cons_of_mem e hx)) (by simp)
      show Metrics.minKeyB (e :: ((f :: s) ++ [(h, v)])) = _
      rw [minKeyB_cons e ((f :: s) ++ [(h, v)]), ihe, minKeyB_cons e (f :: s)]

/-- A key reading `undefined` in a prefix reads through to the suffix. -/
theorem bget_append (m1 m2 : List (String × Metrics.JNum)) (k : String)
    (h : Metrics.bget m1 k = none) :
    Metrics.bget (m1 ++ m2) k = Metrics.bget m2 k := by
  induction m1 with
  | nil => rfl
  | cons e t ih =>
    by_cases he : (e.1 == k) = true
    · rw [bget_cons, if_pos he] at h
      exact absurd h (by simp)
    · rw [bget_cons, if_neg he] at h
      rw [List.cons_append, bget_cons, if_neg he]
      exact ih h

/-- Assignment of a key absent from a prefix happens in the suffix. -/
theorem bset_append_right (m1 m2 : List (String × Metrics.JNum)) (k : String)
    (v : Metrics.JNum) (h : Metrics.bget m1 k = none) :
    Metrics.bset (m1 ++ m2) k v = m1 ++ Metrics.bset m2 k v := by
  induction m1 with
  | nil => rfl
  | cons e t ih =>
    by_cases he : (e.1 == k) = true
    · rw [bget_cons, if_pos he] at h
      exact absurd h (by simp)
    · rw [bget_cons, if_neg he] at h
      rw [List.cons_append]
      show (if (e.1 == k) = true then _ else _) = _
      rw [if_neg he, ih h]
      rfl

/-- Recording the first request of a fresh hour while the retention cap is
not yet reached simply appends a new bucket with count 1. -/
theorem recordRequestHourly_fresh {m : List (String × Metrics.JNum)} {k : String}
    (h : Metrics.bget m k = none) (hlen : m.length + 1 ≤ 168) :
    Metrics.recordRequestHourly m k = m ++ [(k, Metrics.JNum.val 1)] := by
  have htr : Metrics.truthyNum (Metrics.bget m k) = false := by rw [h]; rfl
  have h1 : Metrics.bset m k (Metrics.JNum.val 0) = m ++ [(k, Metrics.JNum.val 0)] :=
    bset_append_of_none h _
  have h2 : Metrics.cleanOldHours (m ++ [(k, Metrics.JNum.val 0)]) =
      m ++ [(k, Metrics.JNum.val 0)] :=
    cleanOldHours_of_le (by simpa using hlen)
  have h3 : Metrics.bget (m ++ [(k, Metrics.JNum.val 0)]) k =
      some (Metrics.JNum.val 0) := by
    rw [bget_append _ _ _ h, bget_cons]
    simp
  have h4 : Metrics.bincr (m ++ [(k, Metrics.JNum.val 0)]) k =
      m ++ [(k, Metrics.JNum.val 1)] := by
    simp only [Metrics.bincr, h3]
    rw [bset_append_right _ _ _ _ h]
    simp [Metrics.bset]
  rw [Metrics.recordRequestHourly, htr]
  simp only [if_false, Bool.false_eq_true]
  rw [h1, h2, h4]

/-- Folding distinct fresh hour keys within the retention cap appends one
count-1 bucket per key, in order. -/
theorem applyHours_fresh (hours : List String) :
    ∀ m : List (String × Metrics.JNum),
      (∀ k ∈ hours, Metrics.bget m k = none) → hours.Nodup →
      m.length + hours.length ≤ 168 →
      Metrics.applyHours m hours =
        m ++ hours.map (fun k => (k, Metrics.JNum.val 1)) := by
  induction hours with
  | nil =>
    intro m _ _ _
    simp [Metrics.applyHours]
  | cons h t ih =>
    intro m hfresh hnodup hlen
    have hstep : Metrics.recordRequestHourly m h = m ++ [(h, Metrics.JNum.val 1)] :=
      recordRequestHourly_fresh (hfresh h (by simp)) (by simp at hlen; omega)
    have hfresh' : ∀ k ∈ t, Metrics.bget (m ++ [(h, Metrics.JNum.val 1)]) k = none := by
      intro k hk
      rw [bget_append _ _ _ (hfresh k (by simp [hk]))]
      have hne : (h == k) = false := by
        have : h ≠ k := fun he => (List.nodup_cons.mp hnodup).1 (he ▸ hk)
        simp [this]
      rw [bget_cons, if_neg (by simp [hne])]
      rfl
    have hrec := ih (m ++ [(h, Metrics.JNum.val 1)]) hfresh'
      (List.nodup_cons.mp hnodup).2 (by simp at hlen ⊢; omega)
    show Metrics.applyHours (Metrics.recordRequestHourly m h) t = _
    rw [hstep, hrec, List.append_assoc]
    rfl

/-- Unfolding equation for one iteration of the cleanup loop. -/
theorem cleanAux_succ (fuel : Nat) (m : List (String × Metrics.JNum)) :
    Metrics.cleanAux (fuel + 1) m =
      if m.length ≤ 168 then m else Metrics.cleanAux fuel (Metrics.removeMinB m) := by
  rfl

/-- C7 (amended): provided the current hour key is never earlier than an
already-recorded hour key (a monotone clock), the hourly bucket mapping holds
at most 168 entries after any `recordRequest` call, and recording the first
request of a new hour while 168 distinct keys exist evicts exactly the entry
with the smallest key, leaving the other 167 entries untouched (in order)
plus the new hour at count 1 — 168 entries in total. -/
theorem c7_hourly_retention (m : List (String × Metrics.JNum)) (hour : String)
    (hlen : m.length ≤ 168)
    (hmono : ∀ e ∈ m, e.1 = hour ∨ jsStrLtB e.1 hour = true) :
    (Metrics.recordRequestHourly m hour).length ≤ 168 ∧
    (m.length = 168 → Metrics.bget m hour = none →
      ∃ kmin, Metrics.minKeyB m = some kmin ∧ jsStrLtB kmin hour = true ∧
        Metrics.recordRequestHourly m hour =
          m.eraseP (fun e => e.1 == kmin) ++ [(hour, Metrics.JNum.val 1)] ∧
        (Metrics.recordRequestHourly m hour).length = 168) := by
  have hcore : m.length = 168 → Metrics.bget m hour = none →
      ∃ kmin, Metrics.minKeyB m = some kmin ∧ jsStrLtB kmin hour = true ∧
        Metrics.recordRequestHourly m hour =
          m.eraseP (fun e => e.1 == kmin) ++ [(hour, Metrics.JNum.val 1)] ∧
        (Metrics.recordRequestHourly m hour).length = 168 := by
    intro h168 hnone
    have hforall : ∀ e ∈ m, (e.1 == hour) = false := bget_none_forall hnone
    have hlt : ∀ e ∈ m, jsStrLtB e.1 hour = true := by
      intro e he
      rcases hmono e he with h1 | h1
      · have h2 := hforall e he
        rw [h1] at h2
        simp at h2
      · exact h1
    have hne : m ≠ [] := by
      intro h0
      rw [h0] at h168
      simp at h168
    obtain ⟨kmin, hk⟩ : ∃ k, Metrics.minKeyB m = some k := by
      cases m with
      | nil => exact absurd rfl hne
      | cons e t => exact minKeyB_isSome e t
    obtain ⟨e0, he0, he0k⟩ := minKeyB_mem hk
    have hpe : (fun e : String × Metrics.JNum => e.1 == kmin) e0 = true := by
      simp [he0k]
    have hkh : jsStrLtB kmin hour = true := he0k ▸ hlt e0 he0
    have htr : Metrics.truthyNum (Metrics.bget m hour) = false := by rw [hnone]; rfl
    have h1 : Metrics.bset m hour (Metrics.JNum.val 0) =
        m ++ [(hour, Metrics.JNum.val 0)] := bset_append_of_none hnone _
    have h2 : (m ++ [(hour, Metrics.JNum.val 0)]).length = 169 := by simp [h168]
    have h3 : Metrics.minKeyB (m ++ [(hour, Metrics.JNum.val 0)]) = some kmin := by
      rw [minKeyB_append_last _ hlt hne, hk]
    have hremove : Metrics.removeMinB (m ++ [(hour, Metrics.JNum.val 0)]) =
        m.eraseP (fun e => e.1 == kmin) ++ [(hour, Metrics.JNum.val 0)] := by
      simp only [Metrics.removeMinB, h3]
      exact @List.eraseP_append_left _ (fun e => e.1 == kmin) e0 hpe m
        [(hour, Metrics.JNum.val 0)] he0
    have heraselen : (m.eraseP (fun e => e.1 == kmin)).length = 167 := by
      rw [List.length_eraseP_of_mem he0 hpe, h168]
    have hrlen : (Metrics.removeMinB (m ++ [(hour, Metrics.JNum.val 0)])).length = 168 := by
      rw [hremove]
      simp [heraselen]
    have h4 : Metrics.cleanOldHours (m ++ [(hour, Metrics.JNum.val 0)]) =
        m.eraseP (fun e => e.1 == kmin) ++ [(hour, Metrics.JNum.val 0)] := by
      rw [Metrics.cleanOldHours, h2]
      show Metrics.cleanAux (168 + 1) (m ++ [(hour, Metrics.JNum.val 0)]) = _
      rw [cleanAux_succ, if_neg (by rw [h2]; omega),
        cleanAux_of_le _ (le_of_eq hrlen), hremove]
    have h6 : Metrics.bget (m.eraseP (fun e => e.1 == kmin)) hour = none :=
      bget_eq_none (fun e he => hforall e ((List.eraseP_sublist m).subset he))
    have h7 : Metrics.bget
        (m.eraseP (fun e => e.1 == kmin) ++ [(hour, Metrics.JNum.val 0)]) hour =
        some (Metrics.JNum.val 0) := by
      rw [bget_append _ _ _ h6, bget_cons]
      simp
    have h8 : Metrics.bincr
        (m.eraseP (fun e => e.1 == kmin) ++ [(hour, Metrics.JNum.val 0)]) hour =
        m.eraseP (fun e => e.1 == kmin) ++ [(hour, Metrics.JNum.val 1)] := by
      simp only [Metrics.bincr, h7]
      rw [bset_append_right _ _ _ _ h6]
      simp [Metrics.bset]
    have h5 : Metrics.recordRequestHourly m hour =
        m.eraseP (fun e => e.1 == kmin) ++ [(hour, Metrics.JNum.val 1)] := by
      simp only [Metrics.recordRequestHourly, htr, Bool.false_eq_true, if_false]
      rw [h1, h4, h8]
    refine ⟨kmin, hk, hkh, h5, ?_⟩
    rw [h5]
    simp [heraselen]
  refine ⟨?_, hcore⟩
  rcases hb : Metrics.bget m hour with _ | x
  · by_cases h168 : m.length = 168
    · obtain ⟨kmin, _, _, _, hlen'⟩ := hcore h168 hb
      omega
    · have hstep := recordRequestHourly_fresh hb (by omega)
      rw [hstep]
      simp only [List.length_append, List.length_cons, List.length_nil]
      omega
  · have hno : Metrics.bget m hour ≠ none := by rw [hb]; simp
    cases x with
    | nan =>
      have htr : Metrics.truthyNum (Metrics.bget m hour) = false := by rw [hb]; rfl
      have hsetlen : (Metrics.bset m hour (Metrics.JNum.val 0)).length = m.length := by
        rw [length_bset, if_neg hno]
      have hclean : Metrics.cleanOldHours (Metrics.bset m hour (Metrics.JNum.val 0)) =
          Metrics.bset m hour (Metrics.JNum.val 0) :=
        cleanOldHours_of_le (by rw [hsetlen]; exact hlen)
      simp only [Metrics.recordRequestHourly, htr, Bool.false_eq_true, if_false, hclean]
      rw [length_bincr, if_neg (by rw [bget_bset_self]; simp), hsetlen]
      exact hlen
    | val n =>
      cases n with
      | zero =>
        have htr : Metrics.truthyNum (Metrics.bget m hour) = false := by rw [hb]; rfl
        have hsetlen : (Metrics.bset m hour (Metrics.JNum.val 0)).length = m.length := by
          rw [length_bset, if_neg hno]
        have hclean : Metrics.cleanOldHours (Metrics.bset m hour (Metrics.JNum.val 0)) =
            Metrics.bset m hour (Metrics.JNum.val 0) :=
          cleanOldHours_of_le (by rw [hsetlen]; exact hlen)
        simp only [Metrics.recordRequestHourly, htr, Bool.false_eq_true, if_false, hclean]
        rw [length_bincr, if_neg (by rw [bget_bset_self]; simp), hsetlen]
        exact hlen
      | succ n' =>
        have htr : Metrics.truthyNum (Metrics.bget m hour) = true := by rw [hb]; rfl
        simp only [Metrics.recordRequestHourly, htr, if_true, ite_true]
        rw [length_bincr, if_neg hno]
        exact hlen

set_option maxRecDepth 4000

/-- C7 counterexample: from the reachable state holding the 168 hour keys
`"h100"`..`"h267"`, a `recordRequest` whose current hour key `"g000"` sorts
before every existing key (a clock that moved back) leaves 169 entries: the
cleanup evicts the newly created bucket itself, and the following `++`
resurrects it as `NaN` — so the claimed 168-entry cap is violated and the
evicted key is not the oldest previously-existing one. -/
theorem c7_hourly_retention_counterexample :
    hourKeys168.length = 168 ∧
    Metrics.applyHours [] ((List.range 168).map (fun i => "h" ++ toString (100 + i))) =
      hourKeys168 ∧
    (Metrics.recordRequestHourly hourKeys168 "g000").length = 169 ∧
    Metrics.bget (Metrics.recordRequestHourly hourKeys168 "g000") "g000" =
      some Metrics.JNum.nan := by
  have hnodup : ((List.range 168).map (fun i => "h" ++ toString (100 + i))).Nodup := by
    decide
  refine ⟨by simp [hourKeys168], ?_, by decide, by decide⟩
  rw [applyHours_fresh _ [] (fun k _ => rfl) hnodup (by simp)]
  simp [hourKeys168, List.map_map]

/-- C7 witness: the amended theorem applied to the full 168-key state with a
later hour key. -/
theorem c7_hourly_retention_witness :
    hourKeys168.length ≤ 168 ∧
    (∀ e ∈ hourKeys168, e.1 = "z999" ∨ jsStrLtB e.1 "z999" = true) ∧
    (Metrics.recordRequestHourly hourKeys168 "z999").length ≤ 168 :=
  ⟨by simp [hourKeys168], by decide,
    (c7_hourly_retention hourKeys168 "z999" (by simp [hourKeys168]) (by decide)).1⟩
